import Mathlib

/-!
Verification of the fluent-flow client-side speech-analysis pipeline.

The definitions below are a shallow embedding of the repository's code:

* the heuristic analyzer of `useSpeechAnalysis` (word counting, filler-word
  detection via `\b…\b` global regexes, the grammar-pattern table, score
  derivation and suggestion generation);
* the `AssistantMode` dispatch controller (silence timer, minimum-word
  gating, the `hasTriggeredRef` duplicate-dispatch guard, the remote call
  and its error handling), modelled as a step function over an explicit
  state, driven by timed events;
* the content-script segment extractor of `handleSpeechResult`
  (`fullTranscript.slice(lastProcessedTranscript.length).trim()`).

JS strings are modelled as `List Char`, JS numbers as `ℤ`/`ℚ` with
`Math.round x = ⌊x + 1/2⌋`.
-/

namespace FluentFlow

/-! ### Text utilities (JS string operations) -/

/-- Whitespace test standing in for the JS `\s` class. -/
def isWs (c : Char) : Bool := c.isWhitespace

/-- JS `String.prototype.trim` on a list of characters. -/
def trimChars (s : List Char) : List Char :=
  ((s.dropWhile isWs).reverse.dropWhile isWs).reverse

/-- Counts maximal runs of characters satisfying `p`; the flag records whether
the scan currently stands inside such a run. -/
def runCountAux (p : Char → Bool) : List Char → Bool → Nat
  | [], _ => 0
  | c :: cs, inRun =>
    if p c then (if inRun then 0 else 1) + runCountAux p cs true
    else runCountAux p cs false

/-- Number of maximal runs of characters satisfying `p` in `s`. -/
def runCount (p : Char → Bool) (s : List Char) : Nat := runCountAux p s false

/-- `countWords` from the analyzer hook:
`text.trim().split(/\s+/).filter(word => word.length > 0).length`, i.e. the
number of maximal non-whitespace runs. -/
def countWords (s : List Char) : Nat := runCount (fun c => !isWs c) s

/-- JS regex word character `\w`: letters, digits and underscore. -/
def isWordChar (c : Char) : Bool := c.isAlphanum || c == '_'

/-- Word-character test at index `i` of `s`; out of range counts as non-word,
matching the JS `\b` convention at the ends of the string. -/
def wAt (s : List Char) (i : Nat) : Bool :=
  match s.get? i with
  | some c => isWordChar c
  | none => false

/-- JS `\b`: a word boundary stands at position `i` iff the characters at
`i - 1` and `i` differ in word-character status. -/
def boundaryAt (s : List Char) : Nat → Bool
  | 0 => wAt s 0
  | j + 1 => wAt s (j + 1) != wAt s j

/-- The pattern `p` matches at index `i` of `s` with word boundaries on both
sides, as the JS regex `\bp\b` does (callers lower both sides for the `i`
flag). -/
def matchesAt (s p : List Char) (i : Nat) : Bool :=
  ((s.drop i).take p.length == p) && boundaryAt s i && boundaryAt s (i + p.length)

/-- Greedy left-to-right scan collecting the start indices of the
non-overlapping `\bp\b` matches, the way a global JS regex advances past
each match; `fuel` only bounds the recursion and is set large enough by
`matchPositions`. -/
def scanAux (s p : List Char) : Nat → Nat → List Nat
  | 0, _ => []
  | fuel + 1, i =>
    if p.isEmpty then []
    else if s.length ≤ i then []
    else if matchesAt s p i then i :: scanAux s p fuel (i + p.length)
    else scanAux s p fuel (i + 1)

/-- Start indices of the matches of `s.match(new RegExp("\\b" + p + "\\b", "g"))`. -/
def matchPositions (s p : List Char) : List Nat := scanAux s p (s.length + 1) 0

/-- Lowercasing, standing in for `toLowerCase()` and the regex `i` flag. -/
def lowerStr (s : List Char) : List Char := s.map Char.toLower

/-! ### The heuristic analyzer (`useSpeechAnalysis`) -/

/-- `FILLER_WORDS` from `src/types/fluent-flow.ts`. -/
def FILLER_WORDS : List (List Char) :=
  (["uh", "um", "like", "you know", "basically", "actually", "literally",
    "so", "well", "right", "okay", "I mean", "kind of", "sort of",
    "you see", "honestly", "obviously", "essentially"]).map String.toList

/-- One `{word, count}` entry of the analyzer's filler-word list. -/
structure FillerWordInstance where
  word : List Char
  count : Nat
  deriving Repr, DecidableEq

/-- `detectFillerWords`: for each lexicon entry, the number of global
case-insensitive `\bfiller\b` matches in the lowercased text; entries with
no match are dropped. -/
def detectFillerWords (text : List Char) : List FillerWordInstance :=
  let lowerText := lowerStr text
  (FILLER_WORDS.map fun filler =>
      FillerWordInstance.mk filler (matchPositions lowerText (lowerStr filler)).length).filter
    fun inst => 0 < inst.count

/-- One `{original, correction, explanation}` entry of the analyzer's
grammar-mistake list. -/
structure GrammarMistake where
  original : List Char
  correction : List Char
  explanation : List Char
  deriving Repr, DecidableEq

/-- `GRAMMAR_PATTERNS`: the fixed ordered table of `\bpattern\b/gi` rules with
their corrections and explanations. -/
def GRAMMAR_PATTERNS : List (List Char × List Char × List Char) :=
  ([("i am went", "I went", "Use simple past tense"),
    ("he don't", "he doesn't", "Use 'doesn't' with third person singular"),
    ("she don't", "she doesn't", "Use 'doesn't' with third person singular"),
    ("it don't", "it doesn't", "Use 'doesn't' with third person singular"),
    ("more better", "better", "'Better' is already comparative"),
    ("most best", "best", "'Best' is already superlative"),
    ("should of", "should have", "Use 'have' not 'of' after modal verbs"),
    ("could of", "could have", "Use 'have' not 'of' after modal verbs"),
    ("would of", "would have", "Use 'have' not 'of' after modal verbs"),
    ("their is", "there is", "'There' indicates location/existence"),
    ("their are", "there are", "'There' indicates location/existence"),
    ("your welcome", "you're welcome", "Use 'you're' (you are)"),
    ("went to went", "went to", "Avoid repetition"),
    ("very very", "very", "Avoid repetition"),
    ("i has", "I have", "Use 'have' with first person"),
    ("we was", "we were", "Use 'were' with plural subjects"),
    ("they was", "they were", "Use 'were' with plural subjects")]).map
    fun e => (e.1.toList, e.2.1.toList, e.2.2.toList)

/-- `detectGrammarMistakes`: every global case-insensitive match of every
pattern becomes one entry, carrying the matched substring of the original
text (patterns are applied in table order). -/
def detectGrammarMistakes (text : List Char) : List GrammarMistake :=
  (GRAMMAR_PATTERNS.map fun pat =>
      (matchPositions (lowerStr text) (lowerStr pat.1)).map fun pos =>
        GrammarMistake.mk ((text.drop pos).take pat.1.length) pat.2.1 pat.2.2).flatten

/-- JS `Math.round` on the non-negative rationals arising here. -/
def jsRound (x : ℚ) : ℤ := ⌊x + 1/2⌋

/-- `calculateSpeed`: `round(wordCount / durationSeconds * 60)`, and `0` when
the duration is not positive. -/
def calculateSpeed (wordCount : Nat) (durationSeconds : ℚ) : ℤ :=
  if durationSeconds ≤ 0 then 0 else jsRound ((wordCount : ℚ) / durationSeconds * 60)

/-- Sentence punctuation class `[.!?]`. -/
def isSentencePunct (c : Char) : Bool := c == '.' || c == '!' || c == '?'

/-- `(text.match(/[.!?]+/g) || []).length`: the number of maximal runs of
sentence punctuation. -/
def sentenceRuns (s : List Char) : Nat := runCount isSentencePunct s

/-- `fillerWords.reduce((sum, f) => sum + f.count, 0)` from `calculateScores`. -/
def totalFillerCount (fw : List FillerWordInstance) : Nat :=
  (fw.map (·.count)).sum

/-- The triple returned by `calculateScores`. -/
structure Scores where
  grammar : ℤ
  fluency : ℤ
  confidence : ℤ
  deriving Repr, DecidableEq

/-- `calculateScores` from the analyzer hook. `grammar` and `confidence` are
integer-valued throughout, so the final `Math.round` only affects the
fluency score, where it is `jsRound`. -/
def calculateScores (text : List Char) (fillerWords : List FillerWordInstance)
    (grammarMistakes : List GrammarMistake) (wordCount : Nat) : Scores :=
  let totalFillers : Nat := (fillerWords.map (·.count)).sum
  let grammarDeduction : ℤ := min ((grammarMistakes.length : ℤ) * 10) 50
  let grammarScore : ℤ := max (100 - grammarDeduction) 50
  let fillerFrac : ℚ := if 0 < wordCount then (totalFillers : ℚ) / wordCount else 0
  let fluencyScore : ℚ := max (100 - fillerFrac * 200) 50
  let sentenceCount : Nat := max (sentenceRuns text) 1
  let avgWordsPerSentence : ℚ := (wordCount : ℚ) / sentenceCount
  let hasGoodLength : Bool := decide (8 ≤ avgWordsPerSentence) && decide (avgWordsPerSentence ≤ 25)
  let confidenceBase : ℤ := if hasGoodLength then 80 else 65
  let confidenceScore : ℤ := min (confidenceBase + if 50 < wordCount then 15 else 0) 95
  ⟨grammarScore, jsRound fluencyScore, confidenceScore⟩

/-- The analyzer's result record (`SpeechAnalysis` in `fluent-flow.ts`). -/
structure SpeechAnalysis where
  transcript : List Char
  grammarScore : ℤ
  pronunciationScore : ℤ
  fluencyScore : ℤ
  confidenceScore : ℤ
  speakingSpeed : ℤ
  fillerWords : List FillerWordInstance
  grammarMistakes : List GrammarMistake
  pauseCount : Nat
  totalPauseDuration : ℚ
  suggestions : List (List Char)
  deriving Repr, DecidableEq

/-- `DEFAULT_SPEECH_ANALYSIS` from `fluent-flow.ts`. -/
def DEFAULT_SPEECH_ANALYSIS : SpeechAnalysis :=
  ⟨[], 0, 0, 0, 0, 0, [], [], 0, 0, []⟩

/-- `xs.join(sep)`. -/
def joinSep (sep : List Char) : List (List Char) → List Char
  | [] => []
  | [x] => x
  | x :: y :: rest => x ++ sep ++ joinSep sep (y :: rest)

/-- `fillerWords.slice(0, 2).map(f => '"' + f.word + '"').join(", ")`. -/
def topFillersText (fws : List FillerWordInstance) : List Char :=
  joinSep (", ".toList) ((fws.take 2).map fun f => '"' :: (f.word ++ ['"']))

/-- The suggestion-generation block of `analyzeText`, in source order:
filler suggestion, first grammar fix, pace suggestion, elaborate suggestion. -/
def buildSuggestions (fillerWords : List FillerWordInstance)
    (grammarMistakes : List GrammarMistake) (speed : ℤ) (wordCount : Nat) :
    List (List Char) :=
  (if 0 < fillerWords.length then
      ["Reduce filler words like ".toList ++ topFillersText fillerWords]
    else []) ++
  (match grammarMistakes with
    | [] => []
    | m :: _ =>
      ["Fix grammar: \"".toList ++ m.original ++ "\" → \"".toList ++
        m.correction ++ "\"".toList]) ++
  (if 160 < speed then ["Slow down your speaking pace for clarity".toList]
    else if speed < 100 && 0 < speed then
      ["Try to speak a bit faster for better flow".toList]
    else []) ++
  (if wordCount < 30 then ["Try to elaborate more on your points".toList] else [])

/-- The `analyzeText` callback of `useSpeechAnalysis` as a pure function of
the text and the elapsed duration: empty (after trim) text yields the default
analysis, otherwise every field is recomputed from scratch. -/
def analyzeText (text : List Char) (durationSeconds : ℚ) : SpeechAnalysis :=
  if trimChars text = [] then DEFAULT_SPEECH_ANALYSIS
  else
    let wordCount := countWords text
    let fillerWords := detectFillerWords text
    let grammarMistakes := detectGrammarMistakes text
    let speed := calculateSpeed wordCount durationSeconds
    let scores := calculateScores text fillerWords grammarMistakes wordCount
    { transcript := text
      grammarScore := scores.grammar
      pronunciationScore := 85
      fluencyScore := scores.fluency
      confidenceScore := scores.confidence
      speakingSpeed := speed
      fillerWords := fillerWords
      grammarMistakes := grammarMistakes
      pauseCount := 0
      totalPauseDuration := 0
      suggestions := buildSuggestions fillerWords grammarMistakes speed wordCount }

/-! ### The `AssistantMode` dispatch controller

`AssistantMode.tsx` is event-driven React code; we model its mutable pieces
(`useState`, `useRef`, the hook state of `useSpeechRecognition`, and the set
of in-flight `generate-response` requests) as one record, and each external
stimulus — a recognition result, the 2-second silence timer expiring, a mic
click, the transcript-panel clear button, a network response arriving — as
an event processed by a step function.  Times are in milliseconds.

`setTimeout`/`clearTimeout` are modelled by the `deadline` field: the
silence-detection effect (which re-runs whenever `transcript`,
`interimTranscript` or `isListening` changes) clears any pending timer and,
while listening, arms a new one 2000 ms ahead; a `fire` event is a timer
callback actually running, which the code only lets happen when the armed
deadline is exactly the current time (a cleared timer never runs). -/

/-- The parsed body of a `generate-response` reply, as `AssistantMode` reads
it: `data?.suggestions` (an array, or absent) and `data.confidence_score`
(zero is falsy in JS, so `some 0` is not stored). -/
structure Resp where
  suggestions : Option (List (List Char))
  confidenceScore : Option Int
  deriving Repr, DecidableEq

/-- The toasts the component can surface. -/
inductive Notice
  | tooShort
  | analysisFailed
  | micDenied
  deriving Repr, DecidableEq

/-- The combined mutable state of `AssistantMode`.  `dispatchCount` and
`utteranceDispatches` are ghost counters: total calls of
`generateAISuggestions`, and calls since `hasTriggeredRef` was last reset. -/
structure AState where
  listening : Bool
  transcript : List Char
  interim : List Char
  lastTranscript : List Char
  hasTriggered : Bool
  deadline : Option Nat
  isProcessing : Bool
  aiResponse : Option Resp
  confidence : Option Int
  inflight : List (List Char)
  notices : List Notice
  dispatchCount : Nat
  utteranceDispatches : Nat
  deriving Repr, DecidableEq

/-- The initial (idle, empty) state of the component. -/
def initAState : AState :=
  ⟨false, [], [], [], false, none, false, none, none, [], [], 0, 0⟩

/-- The status line derived by the `useEffect` at the top of the component:
`analyzing` while a request is processing, else `listening`/`idle`.  (The
enum also has a `processing` member, but the effect never selects it.) -/
inductive AStatus
  | idle
  | listening
  | processing
  | analyzing
  deriving Repr, DecidableEq

/-- `setStatus` as driven by the status effect. -/
def statusOf (s : AState) : AStatus :=
  if s.isProcessing then .analyzing
  else if s.listening then .listening
  else .idle

/-- `generateAISuggestions(text)` up to its `await`: an early return on empty
text, else `setIsProcessing(true)` and one more in-flight request.  The two
ghost counters record the dispatch. -/
def dispatchReq (text : List Char) (s : AState) : AState :=
  if text = [] then s
  else
    { s with isProcessing := true, inflight := s.inflight ++ [text],
             dispatchCount := s.dispatchCount + 1,
             utteranceDispatches := s.utteranceDispatches + 1 }

/-- The events the component reacts to. -/
inductive AEvent
  /-- A recognition result at time `t`: the hook replaces `transcript` and
  `interimTranscript`, and the silence-detection effect re-runs. -/
  | growth (t : Nat) (finalText interimText : List Char)
  /-- The armed silence timer's callback runs at time `t`. -/
  | fire (t : Nat)
  /-- `handleMicClick` at time `t` (microphone permission granted). -/
  | micClick (t : Nat)
  /-- The transcript panel's `onClear` callback at time `t`. -/
  | clear (t : Nat)
  /-- The oldest in-flight request resolves successfully with body `d`. -/
  | respondOk (d : Resp)
  /-- The oldest in-flight request fails (HTTP 429/402/5xx or network error):
  the `catch` branch runs. -/
  | respondErr
  deriving Repr, DecidableEq

/-- The time carried by a timed (DOM-thread) event; network completions are
untimed here because no state they touch interacts with the timer. -/
def eventTime : AEvent → Option Nat
  | .growth t _ _ => some t
  | .fire t => some t
  | .micClick t => some t
  | .clear t => some t
  | .respondOk _ => none
  | .respondErr => none

/-- One event of `AssistantMode`, straight from the component's handlers:

* `growth`: the silence effect clears the pending timer and, if listening,
  records `transcript + interimTranscript` in `lastTranscriptRef` and arms a
  2000 ms timer;
* `fire`: the timer callback — word-count gate (`< 5` words toasts
  "Too short" and returns, still listening), otherwise `stopListening()` and,
  if `hasTriggeredRef` is unset, set it and dispatch;
* `micClick` while listening: `stopListening()`, then dispatch if at least 5
  words and the guard is unset, or toast "Too short" for 1–4 words;
* `micClick` while idle: reset transcript/analysis/response/guard and start
  listening (the effect re-runs and arms a fresh timer);
* `clear`: reset transcript, analysis, response and guard;
* `respondOk`: store the body if it has a `suggestions` array (and its
  nonzero confidence score), then `finally` clear `isProcessing`;
* `respondErr`: toast "Analysis failed", leave the stored response as it
  was, then `finally` clear `isProcessing`. -/
def stepA (s : AState) : AEvent → AState
  | .growth t fin itm =>
    let s := { s with transcript := fin, interim := itm }
    if s.listening then
      { s with lastTranscript := fin ++ itm, deadline := some (t + 2000) }
    else
      { s with deadline := none }
  | .fire t =>
    if s.deadline = some t then
      let s := { s with deadline := none }
      if s.listening && !(trimChars s.transcript).isEmpty then
        if countWords s.transcript < 5 then
          { s with notices := s.notices ++ [.tooShort] }
        else
          let s := { s with listening := false }
          if !s.hasTriggered then
            dispatchReq (trimChars s.transcript) { s with hasTriggered := true }
          else s
      else s
    else s
  | .micClick t =>
    if s.listening then
      let s := { s with listening := false, deadline := none }
      let w := countWords s.transcript
      if 5 ≤ w && !s.hasTriggered then
        dispatchReq (trimChars s.transcript) { s with hasTriggered := true }
      else if 0 < w && w < 5 then
        { s with notices := s.notices ++ [.tooShort] }
      else s
    else
      { s with transcript := [], interim := [], aiResponse := none,
               confidence := none, hasTriggered := false, lastTranscript := [],
               utteranceDispatches := 0, listening := true,
               deadline := some (t + 2000) }
  | .clear t =>
    let s := { s with transcript := [], interim := [], aiResponse := none,
                      confidence := none, hasTriggered := false,
                      utteranceDispatches := 0 }
    if s.listening then
      { s with lastTranscript := [], deadline := some (t + 2000) }
    else
      { s with deadline := none }
  | .respondOk d =>
    match s.inflight with
    | [] => s
    | _ :: rest =>
      let s := { s with inflight := rest }
      let s :=
        match d.suggestions with
        | some _ =>
          { s with aiResponse := some d,
                   confidence :=
                     match d.confidenceScore with
                     | some c => if c ≠ 0 then some c else s.confidence
                     | none => s.confidence }
        | none => s
      { s with isProcessing := false }
  | .respondErr =>
    match s.inflight with
    | [] => s
    | _ :: rest =>
      { s with inflight := rest, notices := s.notices ++ [.analysisFailed],
               isProcessing := false }

/-- Process a list of events from a given state. -/
def runFrom (s : AState) (es : List AEvent) : AState := es.foldl stepA s

/-- Process a list of events from the initial state. -/
def runA (es : List AEvent) : AState := runFrom initAState es

/-! ### The content-script segment extractor (`handleSpeechResult`)

State of the closure around `handleSpeechResult` in the orb content script:
`fullTranscript` grows by `transcript + " "` for every final recognition
result, and a dispatch fires when
`fullTranscript.slice(lastProcessedTranscript.length).trim()` is longer than
10 characters and the transcript changed.  `dispatchedRaw` (ghost) keeps the
raw unprocessed suffix consumed by each dispatch, `dispatchedSegs` the
trimmed segments handed to `processTranscript`. -/

/-- Extractor state. -/
structure ExtState where
  full : List Char
  lastProcessed : List Char
  dispatchedRaw : List (List Char)
  dispatchedSegs : List (List Char)
  deriving Repr, DecidableEq

/-- Extractor state at session start. -/
def initExt : ExtState := ⟨[], [], [], []⟩

/-- One `handleSpeechResult` call delivering the final deltas `finals` (the
interim text does not touch the extractor state): append each final result
plus a space, then run the new-content check and dispatch when it
qualifies. -/
def stepExt (s : ExtState) (finals : List (List Char)) : ExtState :=
  let s := { s with full := s.full ++ (finals.map (fun f => f ++ [' '])).flatten }
  let newRaw := s.full.drop s.lastProcessed.length
  let newContent := trimChars newRaw
  if 10 < newContent.length && s.full ≠ s.lastProcessed then
    { s with lastProcessed := s.full,
             dispatchedRaw := s.dispatchedRaw ++ [newRaw],
             dispatchedSegs := s.dispatchedSegs ++ [newContent] }
  else s

/-- Process a session's recognition events through the extractor. -/
def runExt (evs : List (List (List Char))) : ExtState := evs.foldl stepExt initExt

/-! ### Theorems -/

/-- C4 — If the silence timer fires after 2 seconds and the accumulated final
transcript has fewer than 5 words, the controller stays in listening,
surfaces a TooShort notice, and the Remote Feedback Adapter is never invoked
for that utterance: the timer callback only consumes the armed timer and
toasts "Too short"; `isListening` stays true, no request is dispatched, and
the duplicate-dispatch guard is untouched. -/
theorem fire_tooShort_stays_listening (s : AState) (t : Nat)
    (harmed : s.deadline = some t) (hl : s.listening = true)
    (hne : trimChars s.transcript ≠ []) (hshort : countWords s.transcript < 5) :
    stepA s (.fire t) =
      { s with deadline := none, notices := s.notices ++ [Notice.tooShort] } ∧
    (stepA s (.fire t)).listening = true ∧
    (stepA s (.fire t)).inflight = s.inflight ∧
    (stepA s (.fire t)).dispatchCount = s.dispatchCount := by
  have heq : stepA s (.fire t) =
      { s with deadline := none, notices := s.notices ++ [Notice.tooShort] } := by
    simp only [stepA, harmed, if_pos rfl, hl, List.isEmpty_eq_true, hne,
      not_false_eq_true, Bool.not_true, Bool.not_false, Bool.and_true, Bool.true_and,
      if_pos hshort, decide_not]
    simp [hne, hshort]
  refine ⟨heq, ?_, ?_, ?_⟩ <;> rw [heq] <;> · exact hl ▸ rfl

/-- A listening state with a three-word transcript and the timer armed for
t = 2000, used to witness the too-short branch. -/
def shortUtteranceState : AState :=
  { initAState with
    listening := true
    transcript := "one two three".toList
    deadline := some 2000 }

/-- Witness for `fire_tooShort_stays_listening`: a listening state with a
three-word transcript and the timer armed for t = 2000. -/
theorem fire_tooShort_stays_listening_witness :
    (stepA shortUtteranceState (.fire 2000)).listening = true :=
  (fire_tooShort_stays_listening shortUtteranceState 2000 rfl rfl
    (by decide) (by decide)).2.1

/-- The guard invariant behind C5: since `hasTriggeredRef` was last reset, at
most one dispatch happened, and none at all while the guard is still unset. -/
def GuardInv (s : AState) : Prop :=
  s.utteranceDispatches ≤ 1 ∧ (s.hasTriggered = false → s.utteranceDispatches = 0)

theorem guardInv_init : GuardInv initAState := by constructor <;> simp [initAState]

theorem guardInv_step (s : AState) (e : AEvent) (h : GuardInv s) :
    GuardInv (stepA s e) := by
  obtain ⟨h1, h2⟩ := h
  cases e with
  | growth t fin itm =>
    simp only [stepA]
    split
    · exact ⟨h1, h2⟩
    · exact ⟨h1, h2⟩
  | fire t =>
    simp only [stepA, dispatchReq]
    split
    · split
      · split
        · exact ⟨h1, h2⟩
        · split
          · next htr =>
            have hs0 : s.utteranceDispatches = 0 :=
              h2 (by simpa using htr)
            split
            · exact ⟨h1, fun hfalse => by simp at hfalse⟩
            · exact ⟨by simp [hs0], fun hfalse => by simp at hfalse⟩
          · exact ⟨h1, h2⟩
      · exact ⟨h1, h2⟩
    · exact ⟨h1, h2⟩
  | micClick t =>
    simp only [stepA, dispatchReq]
    split
    · split
      · next hcond =>
        have hs0 : s.utteranceDispatches = 0 := by
          apply h2
          rcases (Bool.and_eq_true ..).mp hcond with ⟨_, htr⟩
          simpa using htr
        split
        · exact ⟨h1, fun hfalse => by simp at hfalse⟩
        · exact ⟨by simp [hs0], fun hfalse => by simp at hfalse⟩
      · split
        · exact ⟨h1, h2⟩
        · exact ⟨h1, h2⟩
    · exact ⟨Nat.zero_le 1, fun _ => rfl⟩
  | clear t =>
    simp only [stepA]
    split
    · exact ⟨Nat.zero_le 1, fun _ => rfl⟩
    · exact ⟨Nat.zero_le 1, fun _ => rfl⟩
  | respondOk d =>
    simp only [stepA]
    split
    · exact ⟨h1, h2⟩
    · split
      · exact ⟨h1, h2⟩
      · exact ⟨h1, h2⟩
  | respondErr =>
    simp only [stepA]
    split
    · exact ⟨h1, h2⟩
    · exact ⟨h1, h2⟩

theorem guardInv_runFrom (s : AState) (es : List AEvent) (h : GuardInv s) :
    GuardInv (runFrom s es) := by
  induction es generalizing s with
  | nil => exact h
  | cons e es ih => exact ih _ (guardInv_step s e h)

/-- C5 — At most one remote-feedback dispatch occurs per utterance even when
both triggers (silence timer and manual stop) fire: in every reachable state
the number of dispatches since the guard was last reset is at most one, and
the guard is only ever reset (true → false) by starting a new session
(`micClick` while idle) or clearing the transcript — both of which start a
new utterance. -/
theorem one_dispatch_per_utterance :
    (∀ es : List AEvent, (runA es).utteranceDispatches ≤ 1) ∧
    (∀ (s : AState) (e : AEvent), s.hasTriggered = true →
      (stepA s e).hasTriggered = false →
      (∃ t, e = .micClick t ∧ s.listening = false) ∨ (∃ t, e = .clear t)) ∧
    (∀ (s : AState) (t : Nat), s.deadline = some t → s.listening = true →
      trimChars s.transcript ≠ [] → ¬countWords s.transcript < 5 →
      s.hasTriggered = false →
      (stepA s (.fire t)).dispatchCount = s.dispatchCount + 1 ∧
      (stepA s (.fire t)).hasTriggered = true) := by
  refine ⟨?_, ?_, ?_⟩
  · intro es
    exact (guardInv_runFrom initAState es guardInv_init).1
  · intro s e htrig hreset
    cases e with
    | growth t fin itm =>
      exfalso
      simp only [stepA] at hreset
      split at hreset <;> simp_all
    | fire t =>
      exfalso
      simp only [stepA, dispatchReq] at hreset
      split at hreset <;> [skip; simp_all] <;>
        split at hreset <;> [skip; simp_all] <;>
        split at hreset <;> simp_all <;> split at hreset <;> simp_all
    | micClick t =>
      by_cases hl : s.listening = true
      · exfalso
        simp only [stepA, hl, if_pos rfl, dispatchReq] at hreset
        split at hreset <;> simp_all <;> split at hreset <;> simp_all
      · exact Or.inl ⟨t, rfl, by simpa using hl⟩
    | clear t => exact Or.inr ⟨t, rfl⟩
    | respondOk d =>
      exfalso
      simp only [stepA] at hreset
      split at hreset <;> simp_all <;> split at hreset <;> simp_all
    | respondErr =>
      exfalso
      simp only [stepA] at hreset
      split at hreset <;> simp_all
  · intro s t harmed hl hne hshort htrig
    have hdis : trimChars s.transcript ≠ [] := hne
    constructor <;>
      simp [stepA, harmed, hl, hne, hshort, htrig, dispatchReq, hdis,
        List.isEmpty_eq_true]

/-- A state whose duplicate-dispatch guard is set. -/
def triggeredState : AState := { initAState with hasTriggered := true }

/-- A listening state with a qualifying (five-word) transcript, the timer
armed for t = 2100 and the guard unset. -/
def qualifiedFireState : AState :=
  { initAState with
    listening := true
    transcript := "one two three four five".toList
    deadline := some 2100 }

/-- Witness for `one_dispatch_per_utterance`: the counter bound on a concrete
run in which the silence timer dispatches and a mic click follows, and the
guard-reset characterisation at a concrete triggered state. -/
theorem one_dispatch_per_utterance_witness :
    (runA [.micClick 0, .growth 100 "one two three four five".toList [],
           .fire 2100, .micClick 3000]).utteranceDispatches ≤ 1 ∧
    ((∃ t, (AEvent.clear 7) = AEvent.micClick t ∧
        (triggeredState : AState).listening = false) ∨
      (∃ t, (AEvent.clear 7) = AEvent.clear t)) ∧
    (stepA qualifiedFireState (.fire 2100)).dispatchCount =
      qualifiedFireState.dispatchCount + 1 :=
  ⟨one_dispatch_per_utterance.1 _,
    one_dispatch_per_utterance.2.1 triggeredState
      (AEvent.clear 7) rfl (by decide),
    (one_dispatch_per_utterance.2.2 qualifiedFireState 2100 rfl rfl
      (by decide) (by decide) rfl).1⟩

/-! C1: the silence timer is cleared and re-armed by every transcript event,
so the callback can only run exactly 2000 ms after the last timed event that
armed it. -/

/-- Every armed deadline lies strictly beyond `t`. -/
def DeadlineBeyond (t : Nat) (s : AState) : Prop :=
  ∀ d, s.deadline = some d → t < d

/-- A growth event leaves the timer disarmed or armed 2000 ms after itself. -/
theorem stepA_growth_deadline (s : AState) (v : Nat) (fin itm : List Char) :
    (stepA s (.growth v fin itm)).deadline = none ∨
    (stepA s (.growth v fin itm)).deadline = some (v + 2000) := by
  simp only [stepA]
  split
  · exact Or.inr rfl
  · exact Or.inl rfl

/-- The timer callback leaves the timer disarmed, or the state untouched. -/
theorem stepA_fire_deadline (s : AState) (v : Nat) :
    (stepA s (.fire v)).deadline = none ∨ stepA s (.fire v) = s := by
  simp only [stepA, dispatchReq]
  split
  · split
    · split
      · exact Or.inl rfl
      · split
        · split
          · exact Or.inl rfl
          · exact Or.inl rfl
        · exact Or.inl rfl
    · exact Or.inl rfl
  · exact Or.inr rfl

/-- A mic click leaves the timer disarmed (stop) or armed 2000 ms after
itself (start, through the re-running silence effect). -/
theorem stepA_micClick_deadline (s : AState) (v : Nat) :
    (stepA s (.micClick v)).deadline = none ∨
    (stepA s (.micClick v)).deadline = some (v + 2000) := by
  simp only [stepA, dispatchReq]
  split
  · split
    · split
      · exact Or.inl rfl
      · exact Or.inl rfl
    · split
      · exact Or.inl rfl
      · exact Or.inl rfl
  · exact Or.inr rfl

/-- Clearing the panel leaves the timer disarmed or armed 2000 ms after
itself. -/
theorem stepA_clear_deadline (s : AState) (v : Nat) :
    (stepA s (.clear v)).deadline = none ∨
    (stepA s (.clear v)).deadline = some (v + 2000) := by
  simp only [stepA]
  split
  · exact Or.inr rfl
  · exact Or.inl rfl

/-- Network completions never touch the timer. -/
theorem stepA_respondOk_deadline (s : AState) (d : Resp) :
    (stepA s (.respondOk d)).deadline = s.deadline := by
  simp only [stepA]
  split
  · rfl
  · split
    · rfl
    · rfl

/-- Network failures never touch the timer. -/
theorem stepA_respondErr_deadline (s : AState) :
    (stepA s .respondErr).deadline = s.deadline := by
  simp only [stepA]
  split
  · rfl
  · rfl

/-- After any event whose time `v` satisfies `t < v + 2000`, every armed
deadline still lies beyond `t`: each handler either clears the timer, leaves
it alone or re-arms it 2000 ms after its own time. -/
theorem deadlineBeyond_step (t : Nat) (s : AState) (e : AEvent)
    (hs : DeadlineBeyond t s) (he : ∀ v, eventTime e = some v → t < v + 2000) :
    DeadlineBeyond t (stepA s e) := by
  cases e with
  | growth v fin itm =>
    intro d hd
    rcases stepA_growth_deadline s v fin itm with h | h <;> rw [h] at hd
    · exact absurd hd (by simp)
    · have hv := he v rfl
      simp only [Option.some.injEq] at hd
      omega
  | fire v =>
    rcases stepA_fire_deadline s v with h | h
    · intro d hd
      rw [h] at hd
      exact absurd hd (by simp)
    · rw [h]
      exact hs
  | micClick v =>
    intro d hd
    rcases stepA_micClick_deadline s v with h | h <;> rw [h] at hd
    · exact absurd hd (by simp)
    · have hv := he v rfl
      simp only [Option.some.injEq] at hd
      omega
  | clear v =>
    intro d hd
    rcases stepA_clear_deadline s v with h | h <;> rw [h] at hd
    · exact absurd hd (by simp)
    · have hv := he v rfl
      simp only [Option.some.injEq] at hd
      omega
  | respondOk dta =>
    intro d hd
    rw [stepA_respondOk_deadline] at hd
    exact hs d hd
  | respondErr =>
    intro d hd
    rw [stepA_respondErr_deadline] at hd
    exact hs d hd

theorem deadlineBeyond_runFrom (t : Nat) (s : AState) (es : List AEvent)
    (hs : DeadlineBeyond t s)
    (he : ∀ e ∈ es, ∀ v, eventTime e = some v → t < v + 2000) :
    DeadlineBeyond t (runFrom s es) := by
  induction es generalizing s with
  | nil => exact hs
  | cons e es ih =>
    exact ih _ (deadlineBeyond_step t s e hs (he e (by simp)))
      fun e' he' => he e' (by simp [he'])

/-- A timer callback running at a time no armed deadline points to leaves the
state untouched (`clearTimeout` in the source means such a callback never
runs at all; the model keeps it as a no-op event). -/
theorem fire_noop_of_deadlineBeyond (t : Nat) (s : AState)
    (hs : DeadlineBeyond t s) : stepA s (.fire t) = s := by
  have hne : ¬s.deadline = some t := fun h => absurd (hs t h) (lt_irrefl t)
  simp only [stepA, if_neg hne]

/-- C1 — Every transcript growth event while listening clears and restarts
the pending silence timer, so a silence-triggered dispatch fires only after
a full 2-second quiet period with no new transcript growth; while the
transcript keeps growing, no silence-triggered dispatch ever fires.
Formally: (1) a growth event at time `t` while listening re-arms the timer
for `t + 2000`; (2) after a growth event at time `u` followed by any events
(growth, clicks, clears, network completions) all of whose times `v` satisfy
`t < v + 2000`, the silence callback at time `t < u + 2000` is a complete
no-op — in particular it dispatches nothing; (3) whenever the silence
callback does dispatch at time `t`, the timer was armed for exactly `t`,
i.e. the last arming event happened at `t - 2000`, a full 2-second quiet
period earlier. -/
theorem silence_timer_quiet_period :
    (∀ (s : AState) (t : Nat) (fin itm : List Char), s.listening = true →
      (stepA s (.growth t fin itm)).deadline = some (t + 2000)) ∧
    (∀ (s : AState) (u t : Nat) (fin itm : List Char) (es : List AEvent),
      t < u + 2000 →
      (∀ e ∈ es, ∀ v, eventTime e = some v → t < v + 2000) →
      stepA (runFrom (stepA s (.growth u fin itm)) es) (.fire t) =
        runFrom (stepA s (.growth u fin itm)) es) ∧
    (∀ (s : AState) (t : Nat),
      (stepA s (.fire t)).dispatchCount ≠ s.dispatchCount →
      s.deadline = some t) := by
  refine ⟨?_, ?_, ?_⟩
  · intro s t fin itm hl
    simp [stepA, hl]
  · intro s u t fin itm es hu he
    refine fire_noop_of_deadlineBeyond t _ ?_
    refine deadlineBeyond_runFrom t _ es ?_ he
    intro d hd
    rcases stepA_growth_deadline s u fin itm with h | h <;> rw [h] at hd
    · exact absurd hd (by simp)
    · simp only [Option.some.injEq] at hd
      omega
  · intro s t hdc
    by_cases h : s.deadline = some t
    · exact h
    · exact absurd (congrArg AState.dispatchCount (by simp only [stepA, if_neg h]))
        hdc

/-- Witness for `silence_timer_quiet_period`, at concrete inputs: a growth
event at t = 1000 re-arms the timer for 3000; a later growth at 2000 makes
the callback at t = 2500 a no-op; and the dispatching callback of
`qualifiedFireState` at t = 2100 finds the deadline armed for exactly 2100. -/
theorem silence_timer_quiet_period_witness :
    (stepA qualifiedFireState (.growth 1000 "one two".toList [])).deadline = some 3000 ∧
    stepA (runFrom (stepA qualifiedFireState (.growth 1000 "one two".toList []))
        [.growth 2000 "one two three".toList []]) (.fire 2500) =
      runFrom (stepA qualifiedFireState (.growth 1000 "one two".toList []))
        [.growth 2000 "one two three".toList []] ∧
    qualifiedFireState.deadline = some 2100 :=
  ⟨silence_timer_quiet_period.1 qualifiedFireState 1000 _ _ rfl,
    silence_timer_quiet_period.2.1 qualifiedFireState 1000 2500 _ _
      [.growth 2000 "one two three".toList []] (by decide) (by decide),
    silence_timer_quiet_period.2.2 qualifiedFireState 2100 (by decide)⟩

/-! C2: there is no staleness guard on the `generate-response` promise, so a
response arriving after the session was reset still lands in the state. -/

/-- A well-formed response body, delivered late. -/
def staleResp : Resp := ⟨some ["Let me add to that.".toList], none⟩

/-- A session that dispatches on silence, is reset by a new mic click while
the request is in flight, i.e. up to just before the stale response
arrives. -/
def resetMidFlight : List AEvent :=
  [.micClick 0, .growth 100 "one two three four five".toList [],
   .fire 2100, .micClick 3000]

/-- C2 — claim: if the session is stopped/reset while a remote feedback
request is in flight, the response must not mutate the now-reset state on
arrival.  The code has no session/generation counter: `generateAISuggestions`
applies `setAiResponse(data)` unconditionally when the awaited promise
resolves.  On the concrete interleaving `resetMidFlight` the reset leaves
`aiResponse = none`, yet when the in-flight response then arrives the state
ends with `aiResponse = some staleResp ≠ none` — the stale response
overwrites the reset state, contradicting the claim. -/
theorem stale_response_mutates_reset_state :
    (runA resetMidFlight).aiResponse = none ∧
    (runA (resetMidFlight ++ [.respondOk staleResp])).aiResponse =
      some staleResp ∧
    some staleResp ≠ (none : Option Resp) := by
  refine ⟨by decide, by decide, by decide⟩

/-! C6: on a failed remote call the controller does not crash and keeps the
stored response, but it returns to idle (listening was already stopped when
the dispatch happened), not to listening. -/

/-- The dispatch flow of `resetMidFlight` without the reset, failed by the
server (HTTP 429/402/5xx all reach the same `catch`). -/
def errTrace : List AEvent :=
  [.micClick 0, .growth 100 "one two three four five".toList [],
   .fire 2100, .respondErr]

/-- C6 counterexample — after a silence-triggered dispatch fails, the
controller's derived status is `idle`, not `listening` as the claim states:
`stopListening()` already ran when the dispatch was made, and the `catch`
branch only toasts and clears `isProcessing`.  The stored response is
unchanged (`none`) and the non-fatal notice is surfaced, as claimed. -/
theorem respondErr_goes_idle_not_listening :
    statusOf (runA errTrace) = AStatus.idle ∧
    statusOf (runA errTrace) ≠ AStatus.listening ∧
    (runA errTrace).aiResponse = none ∧
    (runA errTrace).notices = [Notice.analysisFailed] := by
  refine ⟨by decide, by decide, by decide, by decide⟩

/-- C6 (amended) — when the remote feedback call fails, the controller does
not crash (the `catch` branch handles every failure): it surfaces a visible
non-fatal notice, leaves the stored `FeedbackResponse` (and confidence)
exactly as they were, clears `isProcessing`, and its derived status becomes
`listening` if the session is still listening and `idle` otherwise — in the
silence-dispatch flow, where listening already stopped, that is `idle`. -/
theorem respondErr_keeps_response (s : AState) (h : s.inflight ≠ []) :
    (stepA s .respondErr).aiResponse = s.aiResponse ∧
    (stepA s .respondErr).confidence = s.confidence ∧
    (stepA s .respondErr).notices = s.notices ++ [Notice.analysisFailed] ∧
    (stepA s .respondErr).isProcessing = false ∧
    statusOf (stepA s .respondErr) =
      (if s.listening then AStatus.listening else AStatus.idle) := by
  match hs : s.inflight with
  | [] => exact absurd hs h
  | _ :: rest =>
    refine ⟨?_, ?_, ?_, ?_, ?_⟩ <;> simp [stepA, hs, statusOf]

/-- A state with one request in flight and listening already stopped. -/
def inFlightState : AState :=
  { initAState with
    isProcessing := true
    inflight := ["one two three four five".toList] }

/-- Witness for `respondErr_keeps_response` at `inFlightState`. -/
theorem respondErr_keeps_response_witness :
    (stepA inFlightState .respondErr).aiResponse = inFlightState.aiResponse ∧
    (stepA inFlightState .respondErr).confidence = inFlightState.confidence ∧
    (stepA inFlightState .respondErr).notices =
      inFlightState.notices ++ [Notice.analysisFailed] ∧
    (stepA inFlightState .respondErr).isProcessing = false ∧
    statusOf (stepA inFlightState .respondErr) =
      (if inFlightState.listening then AStatus.listening else AStatus.idle) :=
  respondErr_keeps_response inFlightState (by decide)

/-! C3: the segment extractor never dispatches a character twice, and the
dispatched segment lengths account exactly for the processed prefix of the
transcript, up to the whitespace its `trim()` removed and the still
unprocessed trailing remainder. -/

theorem length_dropWhile_le (p : Char → Bool) (l : List Char) :
    (l.dropWhile p).length ≤ l.length := by
  induction l with
  | nil => simp
  | cons c cs ih =>
    by_cases h : p c <;> simp [List.dropWhile_cons, h] <;> omega

/-- `trim()` never lengthens a string. -/
theorem length_trimChars_le (s : List Char) : (trimChars s).length ≤ s.length := by
  unfold trimChars
  calc ((s.dropWhile isWs).reverse.dropWhile isWs).reverse.length
      = ((s.dropWhile isWs).reverse.dropWhile isWs).length := List.length_reverse _
    _ ≤ (s.dropWhile isWs).reverse.length := length_dropWhile_le _ _
    _ = (s.dropWhile isWs).length := List.length_reverse _
    _ ≤ s.length := length_dropWhile_le _ _

/-- The extractor's inductive invariant: the raw dispatched segments
concatenate exactly to `lastProcessedTranscript` (each character dispatched
at most once, in order), `lastProcessedTranscript` is the processed prefix
of `fullTranscript`, and each dispatched segment is the trim of its raw
suffix. -/
def ExtInv (s : ExtState) : Prop :=
  s.dispatchedRaw.flatten = s.lastProcessed ∧
  s.lastProcessed = s.full.take s.lastProcessed.length ∧
  s.dispatchedSegs = s.dispatchedRaw.map trimChars

theorem extInv_init : ExtInv initExt := by
  refine ⟨rfl, rfl, rfl⟩

theorem extInv_step (s : ExtState) (finals : List (List Char))
    (h : ExtInv s) : ExtInv (stepExt s finals) := by
  obtain ⟨h1, h2, h3⟩ := h
  have hlen : s.lastProcessed.length ≤ s.full.length := by
    have := congrArg List.length h2
    simp only [List.length_take] at this
    omega
  have h2' : s.lastProcessed =
      (s.full ++ (finals.map (fun f => f ++ [' '])).flatten).take
        s.lastProcessed.length := by
    rw [List.take_append_of_le_length hlen]
    exact h2
  simp only [stepExt]
  split
  · refine ⟨?_, ?_, ?_⟩
    · simp only [List.flatten_append, List.flatten_cons, List.flatten_nil,
        List.append_nil, h1]
      nth_rewrite 1 [h2']
      exact List.take_append_drop _ _
    · simp [List.take_length]
    · simp [h3]
  · exact ⟨h1, h2', h3⟩

theorem extInv_runExt (evs : List (List (List Char))) : ExtInv (runExt evs) := by
  have : ∀ s, ExtInv s → ExtInv (evs.foldl stepExt s) := by
    induction evs with
    | nil => exact fun s h => h
    | cons ev evs ih => exact fun s h => ih _ (extInv_step s ev h)
  exact this initExt extInv_init

/-- Trimmed lengths plus trimmed-away whitespace account for the raw
lengths. -/
theorem sum_trim_lengths (L : List (List Char)) :
    ((L.map trimChars).map List.length).sum +
      (L.map fun r => r.length - (trimChars r).length).sum =
    (L.map List.length).sum := by
  induction L with
  | nil => rfl
  | cons r L ih =>
    have hr := length_trimChars_le r
    simp only [List.map_cons, List.sum_cons]
    omega

/-- C3 — The segment extractor computes each new segment as
`fullTranscript.slice(lastProcessedTranscript.length).trim()` (field
`dispatchedSegs = dispatchedRaw.map trimChars`, with `dispatchedRaw` the
consecutive raw suffixes), and for every sequence of monotonically-growing
transcript updates interleaved with dispatch checks: no segment is
dispatched twice — the raw segments concatenate exactly to the processed
prefix — and the sum of the dispatched (trimmed) segment lengths equals the
final transcript length minus the trailing unqualified remainder and minus
the whitespace removed by trimming. -/
theorem segment_extractor_accounting (evs : List (List (List Char))) :
    (runExt evs).dispatchedRaw.flatten = (runExt evs).lastProcessed ∧
    (runExt evs).lastProcessed =
      (runExt evs).full.take (runExt evs).lastProcessed.length ∧
    (runExt evs).dispatchedSegs = (runExt evs).dispatchedRaw.map trimChars ∧
    ((runExt evs).dispatchedSegs.map List.length).sum =
      (runExt evs).full.length -
        ((runExt evs).full.drop (runExt evs).lastProcessed.length).length -
        ((runExt evs).dispatchedRaw.map
          fun r => r.length - (trimChars r).length).sum := by
  obtain ⟨h1, h2, h3⟩ := extInv_runExt evs
  refine ⟨h1, h2, h3, ?_⟩
  have hlen : (runExt evs).lastProcessed.length ≤ (runExt evs).full.length := by
    have := congrArg List.length h2
    simp only [List.length_take] at this
    omega
  have hraw : ((runExt evs).dispatchedRaw.map List.length).sum =
      (runExt evs).lastProcessed.length := by
    rw [← h1]
    exact (List.length_flatten _).symm
  have hsum := sum_trim_lengths (runExt evs).dispatchedRaw
  rw [h3]
  simp only [List.length_drop]
  omega

/-! C7: score floors and formulas.  The stored fluency score is the
`Math.round` of the documented rational formula, so the claim's literal
equality fails off integer values while both floors hold. -/

/-- Rounding keeps a value of `[50, 100]` in `[50, 100]`. -/
theorem jsRound_bounds {x : ℚ} (h1 : 50 ≤ x) (h2 : x ≤ 100) :
    50 ≤ jsRound x ∧ jsRound x ≤ 100 := by
  unfold jsRound
  constructor
  · exact Int.le_floor.mpr (by push_cast; linarith)
  · have h : (⌊x + 1/2⌋ : ℤ) < 101 := Int.floor_lt.mpr (by push_cast; linarith)
    omega

/-- The filler fraction computed by `calculateScores` is non-negative. -/
theorem fillerFrac_nonneg (fw : List FillerWordInstance) (wc : Nat) :
    (0:ℚ) ≤ (if 0 < wc then (totalFillerCount fw : ℚ) / wc else 0) := by
  split
  · exact div_nonneg (Nat.cast_nonneg _) (Nat.cast_nonneg _)
  · exact le_refl 0

/-- The fluency component of `calculateScores`, read off its definition. -/
theorem calculateScores_fluency_eq (text : List Char)
    (fw : List FillerWordInstance) (gm : List GrammarMistake) (wc : Nat) :
    (calculateScores text fw gm wc).fluency =
      jsRound (max (100 -
        (if 0 < wc then (totalFillerCount fw : ℚ) / wc else 0) * 200) 50) :=
  rfl

/-- C7 (amended) — for every input text, the analyzer's scores satisfy
`grammarScore = max(100 - min(10*mistakeCount, 50), 50)` exactly and
`fluencyScore = round(max(100 - 200*(fillerCount/wordCount), 50))` — the
documented formula rounded to the nearest integer, the only change the code
forces on the claim — and both scores lie in `[50, 100]` regardless of
mistake or filler density. -/
theorem scores_floor_and_formula (T : List Char) :
    (50 ≤ (calculateScores T (detectFillerWords T) (detectGrammarMistakes T)
        (countWords T)).grammar ∧
      (calculateScores T (detectFillerWords T) (detectGrammarMistakes T)
        (countWords T)).grammar ≤ 100) ∧
    (50 ≤ (calculateScores T (detectFillerWords T) (detectGrammarMistakes T)
        (countWords T)).fluency ∧
      (calculateScores T (detectFillerWords T) (detectGrammarMistakes T)
        (countWords T)).fluency ≤ 100) ∧
    (calculateScores T (detectFillerWords T) (detectGrammarMistakes T)
        (countWords T)).grammar =
      max (100 - min (10 * ((detectGrammarMistakes T).length : ℤ)) 50) 50 ∧
    (0 < countWords T →
      (calculateScores T (detectFillerWords T) (detectGrammarMistakes T)
          (countWords T)).fluency =
        jsRound (max (100 -
          200 * ((totalFillerCount (detectFillerWords T) : ℚ) /
            (countWords T : ℚ))) 50)) := by
  have hfr := fillerFrac_nonneg (detectFillerWords T) (countWords T)
  refine ⟨?_, ?_, ?_, ?_⟩
  · simp only [calculateScores]
    omega
  · rw [calculateScores_fluency_eq]
    exact jsRound_bounds (le_max_right _ _)
      (max_le (by nlinarith) (by norm_num))
  · simp only [calculateScores]
    rw [Int.mul_comm]
  · intro hw
    rw [calculateScores_fluency_eq, if_pos hw]
    have hc : ∀ x : ℚ, 100 - x * 200 = 100 - 200 * x := fun x => by ring
    rw [hc]

/-- A seven-word input with exactly one filler occurrence. -/
def T7 : List Char := "um cats dogs birds fish trees run".toList

/-- The stored fluency score of `T7`: the formula value is `500/7 ≈ 71.43`,
rounded to 71 by the code. -/
theorem T7_fluency_eval : (analyzeText T7 1).fluencyScore = 71 := by
  have ht : ¬(trimChars T7 = []) := by decide
  have hf : detectFillerWords T7 = [⟨"um".toList, 1⟩] := by decide
  have hg : detectGrammarMistakes T7 = [] := by decide
  have hw : countWords T7 = 7 := by decide
  simp only [analyzeText, if_neg ht, hf, hg, hw, calculateScores]
  norm_num [jsRound]

/-- C7 counterexample — on `T7` (7 words, filler count 1) the analyzer
stores `fluencyScore = 71`, but the claim's formula value
`max(100 - 200*(1/7), 50) = 500/7` is not an integer, so the claimed
equality `fluencyScore = max(100 - 200*(fillerCount/wordCount), 50)` is
false at this input: `(71 : ℚ) ≠ 500/7`. -/
theorem fluency_formula_counterexample :
    detectFillerWords T7 = [⟨"um".toList, 1⟩] ∧
    countWords T7 = 7 ∧
    (analyzeText T7 1).fluencyScore = 71 ∧
    ((71 : ℚ) ≠ max (100 - 200 * ((1:ℚ)/7)) 50) := by
  refine ⟨by decide, by decide, T7_fluency_eval, ?_⟩
  rw [max_eq_left (by norm_num)]
  norm_num

/-- Witness for `scores_floor_and_formula` at `T7`, discharging the
`0 < countWords T7` hypothesis of the fluency-formula conjunct. -/
theorem scores_floor_and_formula_witness :
    0 < countWords T7 ∧
    (calculateScores T7 (detectFillerWords T7) (detectGrammarMistakes T7)
        (countWords T7)).fluency =
      jsRound (max (100 -
        200 * ((totalFillerCount (detectFillerWords T7) : ℚ) /
          (countWords T7 : ℚ))) 50) :=
  ⟨by decide, (scores_floor_and_formula T7).2.2.2 (by decide)⟩

/-! C8: each filler-word count is the size of a maximal set of
non-overlapping, case-insensitive, boundary-respecting whole-word/phrase
occurrences, collected left to right exactly as a global `\b…\b` regex
collects them.  `matchesAt` compares the contiguous slice of the text, so a
multi-word filler such as "you know" is matched as one whole phrase. -/

/-- Every index collected by the scan is a genuine boundary-respecting match
at or after the scan start. -/
theorem scanAux_sound (s p : List Char) (fuel : Nat) :
    ∀ i, ∀ j ∈ scanAux s p fuel i, matchesAt s p j = true ∧ i ≤ j := by
  induction fuel with
  | zero => intro i j hj; simp [scanAux] at hj
  | succ fuel ih =>
    intro i j hj
    simp only [scanAux] at hj
    split at hj
    · simp at hj
    · split at hj
      · simp at hj
      · split at hj
        · rcases List.mem_cons.mp hj with rfl | hj'
          · exact ⟨by assumption, le_refl j⟩
          · obtain ⟨hm, hle⟩ := ih (i + p.length) j hj'
            exact ⟨hm, by omega⟩
        · obtain ⟨hm, hle⟩ := ih (i + 1) j hj
          exact ⟨hm, by omega⟩

/-- The collected indices are non-overlapping: consecutive ones are at least
a pattern length apart. -/
theorem scanAux_nonoverlapping (s p : List Char) (fuel : Nat) :
    ∀ i, List.Chain' (fun a b => a + p.length ≤ b) (scanAux s p fuel i) := by
  induction fuel with
  | zero => intro i; simp [scanAux]
  | succ fuel ih =>
    intro i
    simp only [scanAux]
    split
    · simp
    · split
      · simp
      · split
        · refine List.chain'_cons'.mpr ⟨?_, ih (i + p.length)⟩
          intro y hy
          have hmem : y ∈ scanAux s p fuel (i + p.length) :=
            List.mem_of_mem_head? hy
          exact (scanAux_sound s p fuel (i + p.length) y hmem).2
        · exact ih (i + 1)

/-- A non-empty pattern only matches with room before the end of the text. -/
theorem matchesAt_add_le {s p : List Char} {j : Nat} (hp : p ≠ [])
    (h : matchesAt s p j = true) : j + p.length ≤ s.length := by
  unfold matchesAt at h
  simp only [Bool.and_eq_true] at h
  have heq : (s.drop j).take p.length = p := by
    exact eq_of_beq h.1.1
  have hlen := congrArg List.length heq
  simp only [List.length_take, List.length_drop] at hlen
  have hplen : 0 < p.length := List.length_pos.mpr hp
  omega

/-- Maximality: every boundary-respecting match position at or after the
scan start overlaps one of the collected indices (so none is missed). -/
theorem scanAux_maximal (s p : List Char) (hp : p ≠ []) (fuel : Nat) :
    ∀ i j, s.length ≤ fuel + i → i ≤ j → matchesAt s p j = true →
      ∃ k ∈ scanAux s p fuel i, k ≤ j ∧ j < k + p.length := by
  have hplen : 0 < p.length := List.length_pos.mpr hp
  induction fuel with
  | zero =>
    intro i j hfuel hij hj
    have := matchesAt_add_le hp hj
    omega
  | succ fuel ih =>
    intro i j hfuel hij hj
    have hjlt := matchesAt_add_le hp hj
    have hpe : ¬p.isEmpty := by
      simpa [List.isEmpty_iff] using hp
    have hsi : ¬s.length ≤ i := by omega
    simp only [scanAux, if_neg hpe, if_neg hsi,
      Bool.not_eq_true] at *
    by_cases hm : matchesAt s p i = true
    · rw [if_pos hm]
      by_cases hov : j < i + p.length
      · exact ⟨i, List.mem_cons_self _ _, hij, hov⟩
      · obtain ⟨k, hk, h1, h2⟩ := ih (i + p.length) j (by omega) (by omega) hj
        exact ⟨k, List.mem_cons_of_mem _ hk, h1, h2⟩
    · rw [if_neg hm]
      have hne : i ≠ j := fun h => hm (h ▸ hj)
      exact ih (i + 1) j (by omega) (by omega) hj

/-- C8 — For every text and every lexicon entry `f`, the analyzer's
filler-word count for `f` equals the number of non-overlapping,
case-insensitive, whole-word/phrase (boundary-respecting) matches of `f` in
the text: the count is the length of `matchPositions`, whose indices are all
genuine matches (`matchesAt` demands the contiguous lowercased slice equal
the lowercased entry — multi-word fillers are matched as whole phrases,
never split — with `\b` boundaries on both sides), pairwise non-overlapping,
and maximal: any further match position overlaps a counted one. -/
theorem filler_count_whole_word_matches (text f : List Char)
    (hf : lowerStr f ≠ []) :
    (∀ inst ∈ detectFillerWords text, inst.word = f →
      inst.count = (matchPositions (lowerStr text) (lowerStr f)).length) ∧
    (∀ j ∈ matchPositions (lowerStr text) (lowerStr f),
      matchesAt (lowerStr text) (lowerStr f) j = true) ∧
    List.Chain' (fun a b => a + (lowerStr f).length ≤ b)
      (matchPositions (lowerStr text) (lowerStr f)) ∧
    (∀ j, matchesAt (lowerStr text) (lowerStr f) j = true →
      ∃ k ∈ matchPositions (lowerStr text) (lowerStr f),
        k ≤ j ∧ j < k + (lowerStr f).length) := by
  refine ⟨?_, ?_, ?_, ?_⟩
  · intro inst hinst hword
    unfold detectFillerWords at hinst
    simp only [List.mem_filter, List.mem_map] at hinst
    obtain ⟨⟨filler, hfin, rfl⟩, hcount⟩ := hinst
    simp only at hword ⊢
    rw [hword]
  · intro j hj
    exact (scanAux_sound (lowerStr text) (lowerStr f) _ 0 j hj).1
  · exact scanAux_nonoverlapping (lowerStr text) (lowerStr f) _ 0
  · intro j hj
    exact scanAux_maximal (lowerStr text) (lowerStr f) hf _ 0 j
      (by omega) (by omega) hj

/-- Text with two separate occurrences of the multi-word filler
"you know". -/
def youKnowText : List Char := "well you know the answer you know".toList

/-- Witness for `filler_count_whole_word_matches`: on `youKnowText` the
multi-word entry "you know" is counted twice (once per whole phrase), and
the theorem's conjunction holds there. -/
theorem filler_count_whole_word_matches_witness :
    (matchPositions (lowerStr youKnowText) (lowerStr "you know".toList)).length
        = 2 ∧
    ((∀ inst ∈ detectFillerWords youKnowText, inst.word = "you know".toList →
      inst.count = (matchPositions (lowerStr youKnowText)
        (lowerStr "you know".toList)).length) ∧
    (∀ j ∈ matchPositions (lowerStr youKnowText) (lowerStr "you know".toList),
      matchesAt (lowerStr youKnowText) (lowerStr "you know".toList) j = true) ∧
    List.Chain' (fun a b => a + (lowerStr "you know".toList).length ≤ b)
      (matchPositions (lowerStr youKnowText) (lowerStr "you know".toList)) ∧
    (∀ j, matchesAt (lowerStr youKnowText) (lowerStr "you know".toList) j
        = true →
      ∃ k ∈ matchPositions (lowerStr youKnowText)
          (lowerStr "you know".toList),
        k ≤ j ∧ j < k + (lowerStr "you know".toList).length)) :=
  ⟨by decide, filler_count_whole_word_matches youKnowText "you know".toList
    (by decide)⟩

/-! C9: the suggestion list is ordered with at most one suggestion per
category, but the filler suggestion quotes `fillerWords.slice(0, 2)` — the
first two entries in lexicon order, not the two most frequent — and the pace
suggestion additionally requires a nonzero speed. -/

/-- The detected filler entries appear in the fixed lexicon order: their
words form a sublist of `FILLER_WORDS`. -/
theorem detectFillerWords_words_sublist (text : List Char) :
    List.Sublist ((detectFillerWords text).map (·.word)) FILLER_WORDS := by
  unfold detectFillerWords
  generalize FILLER_WORDS = L
  induction L with
  | nil => simp
  | cons f L ih =>
    simp only [List.map_cons, List.filter_cons]
    split
    · simpa only [List.map_cons] using ih.cons₂ f
    · exact ih.cons f

/-- C9 (amended) — the analyzer's suggestion list is the ordered
concatenation of at most one suggestion per category, each present exactly
when its code trigger holds: a filler suggestion quoting the first two
entries of the detected filler list (which is ordered by the fixed lexicon,
not by frequency) when any filler was detected; the first original→correction
grammar pair when mistakes exist; a pace suggestion when the speed is above
160 or strictly between 0 and 100 (a zero speed, though outside [100,160],
triggers nothing); and the elaborate suggestion when the word count is below
30. -/
theorem suggestions_ordered_by_category (T : List Char) (d : ℚ)
    (h : trimChars T ≠ []) :
    (analyzeText T d).suggestions =
      ((if 0 < (detectFillerWords T).length then
          ["Reduce filler words like ".toList ++
            topFillersText (detectFillerWords T)]
        else []) ++
      (match detectGrammarMistakes T with
        | [] => []
        | m :: _ =>
          ["Fix grammar: \"".toList ++ m.original ++ "\" → \"".toList ++
            m.correction ++ "\"".toList]) ++
      (if 160 < calculateSpeed (countWords T) d then
          ["Slow down your speaking pace for clarity".toList]
        else if calculateSpeed (countWords T) d < 100 &&
            0 < calculateSpeed (countWords T) d then
          ["Try to speak a bit faster for better flow".toList]
        else []) ++
      (if countWords T < 30 then
          ["Try to elaborate more on your points".toList]
        else [])) ∧
    List.Sublist ((detectFillerWords T).map (·.word)) FILLER_WORDS := by
  constructor
  · simp only [analyzeText, if_neg h]
    rfl
  · exact detectFillerWords_words_sublist T

/-- An input whose most frequent filler ("basically", three hits) is not
among the first two detected entries ("uh" and "um", one hit each), spoken
over a zero elapsed duration so the computed speed is 0. -/
def T9 : List Char :=
  "uh today um we keep basically items basically items basically done".toList

/-- C9 counterexample — on `T9` the filler suggestion quotes "uh" and "um"
(one occurrence each, first in lexicon order) although "basically" has three
occurrences, so it does not name the two most frequent fillers; and although
the computed speed 0 lies outside [100, 160], no pace suggestion is emitted
— the suggestion list is exactly the filler and elaborate suggestions. -/
theorem filler_suggestion_not_most_frequent :
    (analyzeText T9 0).fillerWords =
      [⟨"uh".toList, 1⟩, ⟨"um".toList, 1⟩, ⟨"basically".toList, 3⟩] ∧
    (analyzeText T9 0).speakingSpeed = 0 ∧
    (analyzeText T9 0).suggestions =
      ["Reduce filler words like \"uh\", \"um\"".toList,
       "Try to elaborate more on your points".toList] := by
  refine ⟨by decide, by decide, by decide⟩

/-- Witness for `suggestions_ordered_by_category` at `T9` with a zero
duration. -/
theorem suggestions_ordered_by_category_witness :
    (analyzeText T9 0).suggestions =
      ((if 0 < (detectFillerWords T9).length then
          ["Reduce filler words like ".toList ++
            topFillersText (detectFillerWords T9)]
        else []) ++
      (match detectGrammarMistakes T9 with
        | [] => []
        | m :: _ =>
          ["Fix grammar: \"".toList ++ m.original ++ "\" → \"".toList ++
            m.correction ++ "\"".toList]) ++
      (if 160 < calculateSpeed (countWords T9) 0 then
          ["Slow down your speaking pace for clarity".toList]
        else if calculateSpeed (countWords T9) 0 < 100 &&
            0 < calculateSpeed (countWords T9) 0 then
          ["Try to speak a bit faster for better flow".toList]
        else []) ++
      (if countWords T9 < 30 then
          ["Try to elaborate more on your points".toList]
        else [])) ∧
    List.Sublist ((detectFillerWords T9).map (·.word)) FILLER_WORDS :=
  suggestions_ordered_by_category T9 0 (by decide)

/-! C10: the scenario input. -/

/-- The scenario input of the spec. -/
def T10 : List Char :=
  "I think we should of done this differently, um, like, very very carefully".toList

/-- The stored fluency score of `T10`: 13 words, 2 filler hits, formula
value `900/13 ≈ 69.23`, stored as its rounding 69. -/
theorem T10_fluency_eval : (analyzeText T10 1).fluencyScore = 69 := by
  have ht : ¬(trimChars T10 = []) := by decide
  have hf : detectFillerWords T10 =
      [⟨"um".toList, 1⟩, ⟨"like".toList, 1⟩] := by decide
  have hg : detectGrammarMistakes T10 =
      [⟨"should of".toList, "should have".toList,
        "Use 'have' not 'of' after modal verbs".toList⟩,
       ⟨"very very".toList, "very".toList, "Avoid repetition".toList⟩] := by
    decide
  have hw : countWords T10 = 13 := by decide
  simp only [analyzeText, if_neg ht, hf, hg, hw, calculateScores]
  norm_num [jsRound]

/-- C10 (amended) — on the scenario input the analyzer reports exactly the
two grammar mistakes ("should of" → "should have", "very very" → "very"),
the filler hits um:1 and like:1, `grammarScore = 80`, and
`fluencyScore = 69`, which is the documented formula's value for 13 words
and 2 fillers — `max(100 - 200*(2/13), 50) = 900/13` — rounded to the
nearest integer, the only change the code forces on the claim. -/
theorem scenario_input_analysis :
    (analyzeText T10 1).grammarMistakes =
      [⟨"should of".toList, "should have".toList,
        "Use 'have' not 'of' after modal verbs".toList⟩,
       ⟨"very very".toList, "very".toList, "Avoid repetition".toList⟩] ∧
    (analyzeText T10 1).fillerWords =
      [⟨"um".toList, 1⟩, ⟨"like".toList, 1⟩] ∧
    (analyzeText T10 1).grammarScore = 80 ∧
    countWords T10 = 13 ∧
    (analyzeText T10 1).fluencyScore = 69 ∧
    (69 : ℤ) = jsRound (max (100 - 200 * ((2:ℚ)/13)) 50) := by
  refine ⟨by decide, by decide, by decide, by decide, T10_fluency_eval, ?_⟩
  norm_num [jsRound]

/-- C10 counterexample — the claim's final conjunct asks for `fluencyScore`
equal to the value of the documented formula; that value is `900/13`, not an
integer, while the analyzer stores 69: `(69 : ℚ) ≠ max(100 - 200*(2/13), 50)`. -/
theorem scenario_fluency_not_formula_value :
    (analyzeText T10 1).fluencyScore = 69 ∧
    ((69 : ℚ) ≠ max (100 - 200 * ((2:ℚ)/13)) 50) := by
  refine ⟨T10_fluency_eval, ?_⟩
  rw [max_eq_left (by norm_num)]
  norm_num

end FluentFlow
